import Mathlib

/-!
Verification of the streaming response-drafting engine of the
retell-backend-node-demo repository.

The embedding models the function-calling LLM client (`DemoLlmClient` with
the book-lookup tools): the delta accumulator `messageReducer`, the tool
handlers `list` / `search` / `get` and their dispatcher `callFunction`, the
prompt builders `ConversationToChatRequestMessages` / `PreparePrompt`, and
the drafting cycle `DraftResponse`.

JavaScript runtime values are modelled by the inductive `JsVal`; machine
behaviours the code relies on (`typeof` checks, truthiness, `Object.entries`
on strings, property access throwing on `null`/`undefined`) are modelled by
explicit functions.  Operations that can throw return `Option`/`Except`.
Console logging and the WebSocket transport are not modelled: a drafting
cycle is a function from the inbound request and the provider stream to the
ordered list of frames passed to `ws.send`, together with the error (if any)
that escapes the method.
-/

namespace RetellDemo

/-- A JavaScript runtime value, as far as the accumulator and the tool layer
inspect one: `undefined`, `null`, booleans, numbers (integral model),
strings, arrays and plain objects (ordered field list, first binding wins
on lookup as in a JS object). -/
inductive JsVal where
  | undefined : JsVal
  | null : JsVal
  | bool (b : Bool) : JsVal
  | num (n : Int) : JsVal
  | str (s : String) : JsVal
  | arr (elems : List JsVal) : JsVal
  | obj (fields : List (String × JsVal)) : JsVal
deriving Repr

/-- JavaScript truthiness: `undefined`, `null`, `false`, `0` and the empty
string are falsy; every object and array (even empty) is truthy. -/
def jsTruthy : JsVal → Bool
  | .undefined => false
  | .null => false
  | .bool b => b
  | .num n => n != 0
  | .str s => s != ""
  | .arr _ => true
  | .obj _ => true

/-- First binding of key `k` in an object field list (JS objects have unique
keys; lists produced by the operations below keep that invariant). -/
def lookupField (fields : List (String × JsVal)) (k : String) : Option JsVal :=
  match fields with
  | [] => none
  | (k₀, v₀) :: rest => if k₀ = k then some v₀ else lookupField rest k

/-- JS assignment `o[k] = v`: replace the existing binding in place (the key
keeps its position, as in a JS object), otherwise append. -/
def setField (fields : List (String × JsVal)) (k : String) (v : JsVal) :
    List (String × JsVal) :=
  match fields with
  | [] => [(k, v)]
  | (k₀, v₀) :: rest =>
      if k₀ = k then (k₀, v) :: rest else (k₀, v₀) :: setField rest k v

/-- JS property read `base.k`.  Returns `none` when the read throws
(`TypeError` on `null`/`undefined` base); a missing property on any other
base reads as `undefined`. -/
def getProp : JsVal → String → Option JsVal
  | .undefined, _ => none
  | .null, _ => none
  | .obj fields, k => some ((lookupField fields k).getD .undefined)
  | _, _ => some .undefined

/-- The singleton string holding one character. -/
def charStr (c : Char) : String := String.mk [c]

/-- JS `Object.entries`: object fields as given; arrays and strings
enumerate index keys `"0"`, `"1"`, …; numbers and booleans have no own
enumerable properties; `null`/`undefined` throw (`none`). -/
def jsEntries : JsVal → Option (List (String × JsVal))
  | .undefined => none
  | .null => none
  | .bool _ => some []
  | .num _ => some []
  | .str s => some ((s.toList.enum).map (fun p => (toString p.1, .str (charStr p.2))))
  | .arr elems => some ((elems.enum).map (fun p => (toString p.1, p.2)))
  | .obj fields => some fields

/-- One pass of the `for (const [key, value] of Object.entries(delta))`
loop of `messageReducer`, parameterised by the recursive merge `rec` used
for the nested-object branch: set when absent or `null`, concatenate when
both strings, recurse via `rec` when the existing value is a non-array
object, otherwise leave the field untouched. -/
def reduceFoldWith
    (rec : List (String × JsVal) → JsVal → Option (List (String × JsVal))) :
    List (String × JsVal) → List (String × JsVal) → Option (List (String × JsVal))
  | acc, [] => some acc
  | acc, (k, v) :: rest =>
      match lookupField acc k with
      | none => reduceFoldWith rec (setField acc k v) rest
      | some .undefined => reduceFoldWith rec (setField acc k v) rest
      | some .null => reduceFoldWith rec (setField acc k v) rest
      | some (.str s) =>
          match v with
          | .str t => reduceFoldWith rec (setField acc k (.str (s ++ t))) rest
          | _ => reduceFoldWith rec acc rest
      | some (.obj inner) =>
          match rec inner v with
          | none => none
          | some merged => reduceFoldWith rec (setField acc k (.obj merged)) rest
      | some (.arr _) => reduceFoldWith rec acc rest
      | some (.bool _) => reduceFoldWith rec acc rest
      | some (.num _) => reduceFoldWith rec acc rest

/-- The inner `reduce` of `messageReducer` (src/unnamed/part_000 lines
124-143), fuel-indexed: `acc = {...acc}` then fold `Object.entries(delta)`
via `reduceFoldWith`.  `none` stands for a thrown `TypeError`
(`Object.entries` of `null`/`undefined`) or exhausted fuel; the caller
supplies fuel that is ample for the recursion depth the code can reach, so
`none` is read as "the call threw". -/
def reduceJs : Nat → List (String × JsVal) → JsVal → Option (List (String × JsVal))
  | 0, _, _ => none
  | fuel + 1, acc, delta =>
      match jsEntries delta with
      | none => none
      | some es => reduceFoldWith (reduceJs fuel) acc es

/-! ## Provider stream events -/

/-- One choice of a streamed chat-completion chunk: a delta value and the
finish reason (`null` modelled as `none`). -/
structure Choice where
  delta : JsVal
  finish_reason : Option String
deriving Repr

/-- One streamed chunk from the completion provider. -/
structure ChatCompletionChunk where
  choices : List Choice
deriving Repr

mutual
/-- Structural size of a value, used to pick an ample fuel for the merge. -/
def jsSize : JsVal → Nat
  | .obj fields => 1 + jsSizeFields fields
  | .arr elems => 1 + jsSizeList elems
  | _ => 1

/-- Combined size of a list of values. -/
def jsSizeList : List JsVal → Nat
  | [] => 0
  | v :: rest => jsSize v + jsSizeList rest

/-- Combined size of an object field list. -/
def jsSizeFields : List (String × JsVal) → Nat
  | [] => 0
  | (_, v) :: rest => jsSize v + jsSizeFields rest
end

/-- Fuel that is ample for the merge recursion: every recursive call of
`reduceJs` descends into a value stored in the accumulator, so the combined
size of accumulator and delta bounds the recursion depth. -/
def reducerFuel (acc : List (String × JsVal)) (delta : JsVal) : Nat :=
  jsSizeFields acc + jsSize delta + 1

/-- `messageReducer(previous, item)` (src/unnamed/part_000 lines 124-143):
reduce `previous` with `item.choices[0]!.delta`.  `none` models the throw:
`item.choices[0]` is `undefined` when `choices` is empty, so reading
`.delta` throws, as does `Object.entries` of a `null`/`undefined` delta. -/
def messageReducer (previous : List (String × JsVal)) (item : ChatCompletionChunk) :
    Option (List (String × JsVal)) :=
  match item.choices with
  | [] => none
  | choice :: _ => reduceJs (reducerFuel previous choice.delta) previous choice.delta

/-- Folding a whole stream of chunks into an initially empty accumulated
message, as the `for await` loop of `DraftResponse` does. -/
def accumulate (chunks : List ChatCompletionChunk) : Option (List (String × JsVal)) :=
  chunks.foldlM messageReducer []

/-! ## The book dataset and the tool handlers -/

/-- One record of the in-memory book dataset `db`. -/
structure Book where
  id : String
  name : String
  genre : String
  description : String
deriving Repr, DecidableEq

/-- The backing dataset `db` (src/unnamed/part_000 lines 27-48). -/
def db : List Book :=
  [ { id := "a1"
      name := "To Kill a Mockingbird"
      genre := "historical"
      description := "Compassionate, dramatic, and deeply moving, \"To Kill A Mockingbird\" takes readers to the roots of human behavior - to innocence and experience, kindness and cruelty, love and hatred, humor and pathos. Now with over 18 million copies in print and translated into forty languages, this regional story by a young Alabama woman claims universal appeal. Harper Lee always considered her book to be a simple love story. Today it is regarded as a masterpiece of American literature." }
  , { id := "a2"
      name := "All the Light We Cannot See"
      genre := "historical"
      description := "In a mining town in Germany, Werner Pfennig, an orphan, grows up with his younger sister, enchanted by a crude radio they find that brings them news and stories from places they have never seen or imagined. Werner becomes an expert at building and fixing these crucial new instruments and is enlisted to use his talent to track down the resistance. Deftly interweaving the lives of Marie-Laure and Werner, Doerr illuminates the ways, against all odds, people try to be good to one another." }
  , { id := "a3"
      name := "Where the Crawdads Sing"
      genre := "historical"
      description := "For years, rumors of the “Marsh Girl” haunted Barkley Cove, a quiet fishing village. Kya Clark is barefoot and wild; unfit for polite society. So in late 1969, when the popular Chase Andrews is found dead, locals immediately suspect her.\n\nBut Kya is not what they say. A born naturalist with just one day of school, she takes life's lessons from the land, learning the real ways of the world from the dishonest signals of fireflies. But while she has the skills to live in solitude forever, the time comes when she yearns to be touched and loved. Drawn to two young men from town, who are each intrigued by her wild beauty, Kya opens herself to a new and startling world—until the unthinkable happens." }
  ]

/-- JS strict equality `v === s` between an arbitrary value and a string:
true exactly when `v` is that string. -/
def strictEqStr (v : JsVal) (s : String) : Bool :=
  match v with
  | .str t => t = s
  | _ => false

/-- Models `String.prototype.includes`: `strIncludes s sub` is true when
`sub` occurs as a contiguous substring of `s` (the empty string occurs in
every string). -/
def strIncludes (s sub : String) : Bool :=
  (List.range (s.toList.length + 1)).any
    (fun i => sub.toList.isPrefixOf (s.toList.drop i))

/-- Models the JS `String(...)` coercion on the primitive values the tool
layer can receive as arguments (the parsed argument objects of this model
only hold strings, so object/array coercion is collapsed to the constant
JS prints for a plain object). -/
def jsToString : JsVal → String
  | .undefined => "undefined"
  | .null => "null"
  | .bool b => if b then "true" else "false"
  | .num n => toString n
  | .str s => s
  | .arr _ => ""
  | .obj _ => "[object Object]"

/-- The `{name, id}` projection the `list` and `search` handlers return for
one book. -/
def bookRef (item : Book) : JsVal :=
  .obj [("name", .str item.name), ("id", .str item.id)]

/-- Handler `list(genre)` (lines 89-93): books whose `genre` field is
strictly equal to the argument, projected to `{name, id}`. -/
def list (genre : JsVal) : JsVal :=
  .arr ((db.filter (fun item => strictEqStr genre item.genre)).map bookRef)

/-- Handler `search(name)` (lines 95-99): books whose name contains the
argument as a substring, projected to `{name, id}`. -/
def search (name : JsVal) : JsVal :=
  .arr ((db.filter (fun item => strIncludes item.name (jsToString name))).map bookRef)

/-- One book as the JS object the `get` handler returns. -/
def bookToJs (item : Book) : JsVal :=
  .obj [ ("id", .str item.id), ("name", .str item.name)
       , ("genre", .str item.genre), ("description", .str item.description) ]

/-- Handler `get(id)` (lines 101-103): `db.find(item => item.id === id)!`.
The non-null assertion `!` is erased at runtime, so an id with no match
makes the handler return `undefined` — it does not throw. -/
def get (id : JsVal) : JsVal :=
  match db.find? (fun item => strictEqStr id item.id) with
  | some item => bookToJs item
  | none => .undefined

/-! ## JSON parsing and serialisation

`callFunction` calls the platform builtin `JSON.parse` on the tool call's
raw argument string, and `DraftResponse` renders a tool result with
`JSON.stringify`.  `parseJson` models `JSON.parse` on the subset of texts
the tool-call paths produce: objects whose keys and values are plain
strings without escape sequences (plus the empty object).  Texts outside
the subset are rejected; `JSON.parse` accepts more, so the theorems below
only ever evaluate `parseJson` at texts inside the subset or at texts
`JSON.parse` itself rejects (such as the empty string). -/

/-- Skip JSON whitespace. -/
def skipWs (cs : List Char) : List Char :=
  match cs with
  | [] => []
  | c :: rest =>
      if c = ' ' || c = '\n' || c = '\t' || c = '\r' then skipWs rest else c :: rest

/-- Read the body of a string literal (the opening quote already consumed)
up to its closing quote; escape sequences are outside the modelled subset. -/
def parseStringLit (cs : List Char) : Option (String × List Char) :=
  match cs with
  | [] => none
  | c :: rest =>
      if c = '"' then some ("", rest)
      else if c = '\\' then none
      else (parseStringLit rest).map (fun p => (charStr c ++ p.1, p.2))

/-- Parse the members of a non-empty object, string keys and string values,
returning the fields and the text after the closing brace. -/
def parseMembers : Nat → List Char → Option (List (String × JsVal) × List Char)
  | 0, _ => none
  | fuel + 1, cs =>
      match skipWs cs with
      | '"' :: rest =>
          match parseStringLit rest with
          | none => none
          | some (k, rest1) =>
              match skipWs rest1 with
              | ':' :: rest2 =>
                  match skipWs rest2 with
                  | '"' :: rest3 =>
                      match parseStringLit rest3 with
                      | none => none
                      | some (v, rest4) =>
                          match skipWs rest4 with
                          | ',' :: rest5 =>
                              (parseMembers fuel rest5).map
                                (fun p => ((k, .str v) :: p.1, p.2))
                          | '}' :: rest5 => some ([(k, JsVal.str v)], rest5)
                          | _ => none
                  | _ => none
              | _ => none
      | _ => none

/-- Models `JSON.parse` on the flat string-object subset (see above);
`none` models the thrown `SyntaxError`. -/
def parseJson (s : String) : Option JsVal :=
  match skipWs s.toList with
  | '{' :: rest =>
      match skipWs rest with
      | '}' :: rest1 => if (skipWs rest1).isEmpty then some (.obj []) else none
      | _ =>
          match parseMembers (rest.length + 1) rest with
          | some (fields, rest1) =>
              if (skipWs rest1).isEmpty then some (.obj fields) else none
          | none => none
  | _ => none

/-- A character escaped for a JSON string literal. -/
def escapeJsonChar (c : Char) : String :=
  if c = '"' then "\\\"" else if c = '\\' then "\\\\"
  else if c = '\n' then "\\n" else charStr c

/-- A string escaped for a JSON string literal. -/
def escapeJson (s : String) : String :=
  String.join (s.toList.map escapeJsonChar)

mutual
/-- Models `JSON.stringify`: `none` for `undefined` (JS returns the value
`undefined`); inside arrays `undefined` prints as `null`, inside objects an
`undefined`-valued field is skipped. -/
def jsonStringify : JsVal → Option String
  | .undefined => none
  | .null => some "null"
  | .bool b => some (if b then "true" else "false")
  | .num n => some (toString n)
  | .str s => some ("\"" ++ escapeJson s ++ "\"")
  | .arr elems => some ("[" ++ String.intercalate "," (jsonStringifyElems elems) ++ "]")
  | .obj fields =>
      some ("\x7b" ++ String.intercalate "," (jsonStringifyMembers fields) ++ "\x7d")

/-- Array elements rendered by `JSON.stringify`. -/
def jsonStringifyElems : List JsVal → List String
  | [] => []
  | v :: rest => ((jsonStringify v).getD "null") :: jsonStringifyElems rest

/-- Object members rendered by `JSON.stringify`. -/
def jsonStringifyMembers : List (String × JsVal) → List String
  | [] => []
  | (k, v) :: rest =>
      match jsonStringify v with
      | none => jsonStringifyMembers rest
      | some sv => ("\"" ++ escapeJson k ++ "\":" ++ sv) :: jsonStringifyMembers rest
end

/-- The errors tool execution can throw. -/
inductive JsError where
  | jsonParse : JsError
  | noFunctionFound : JsError
  | typeError : JsError
deriving Repr, DecidableEq

/-- Dispatcher `callFunction(function_call)` (src/unnamed/part_000 lines
105-122): `JSON.parse(function_call.arguments!)`, then a switch on
`function_call.name` over the handlers `list`, `search` and `get`, with
`throw new Error("No function found")` as the default.  A parse failure is
`jsonParse`; reading a property of a `null` parse result is `typeError`. -/
def callFunction (function_call : JsVal) : Except JsError JsVal :=
  match getProp function_call "arguments" with
  | none => .error .typeError
  | some rawArgs =>
      match parseJson (jsToString rawArgs) with
      | none => .error .jsonParse
      | some args =>
          match getProp function_call "name" with
          | none => .error .typeError
          | some nameV =>
              match nameV with
              | .str "list" =>
                  match getProp args "genre" with
                  | none => .error .typeError
                  | some g => .ok (list g)
              | .str "search" =>
                  match getProp args "name" with
                  | none => .error .typeError
                  | some n => .ok (search n)
              | .str "get" =>
                  match getProp args "id" with
                  | none => .error .typeError
                  | some i => .ok (get i)
              | _ => .error .noFunctionFound

/-! ## Requests, frames and the prompt builders -/

/-- One turn of the conversation transcript (`Utterance` of `./types`). -/
structure Utterance where
  role : String
  content : String
deriving Repr, DecidableEq

/-- One inbound request (`RetellRequest` of `./types`). -/
structure RetellRequest where
  response_id : Nat
  transcript : List Utterance
  interaction_type : String
deriving Repr, DecidableEq

/-- One outbound frame (`RetellResponse` of `./types`), as passed to
`ws.send`.  `content` is kept as a runtime value: the code sends
`delta.content` unchecked, so a provider could in principle put a
non-string there. -/
structure RetellResponse where
  response_id : Nat
  content : JsVal
  content_complete : Bool
  end_call : Bool
deriving Repr

/-- One message of the prompt sent to the completion provider. -/
structure ChatMessage where
  role : String
  content : String
deriving Repr, DecidableEq

/-- The agent persona appended to the system prompt (lines 149-150). -/
def agentPrompt : String :=
  "You are a friendly AI agent that helps users find books. You can list books by genre, search for books by name, and get detailed information about a book by its ID. You can also provide recommendations based on the user's preferences. You should be helpful, engaging, and knowledgeable about books. Remember to ask follow-up questions to keep the conversation going. Let's start!"

/-- The fixed behavioural system prompt of `PreparePrompt` (line 230),
concatenated with `agentPrompt`. -/
def systemPromptContent : String :=
  "##Objective\nYou are a voice AI agent engaging in a human-like voice conversation with the user. You will respond based on your given instruction and the provided transcript and be as human-like as possible\n\n## Style Guardrails\n- [Be concise] Keep your response succinct, short, and get to the point quickly. Address one question or action item at a time. Don't pack everything you want to say into one utterance.\n- [Do not repeat] Don't repeat what's in the transcript. Rephrase if you have to reiterate a point. Use varied sentence structures and vocabulary to ensure each response is unique and personalized.\n- [Be conversational] Speak like a human as though you're speaking to a close friend -- use everyday language and keep it human-like. Occasionally add filler words, while keeping the prose short. Avoid using big words or sounding too formal.\n- [Reply with emotions]: You have human-like emotions, attitudes, and dispositions. When appropriate: use tone and style to create more engaging and personalized responses; incorporate humor or wit; get emotional or empathetic; apply elements of surprise or suspense to keep the user engaged. Don't be a pushover.\n- [Be proactive] Lead the conversation and do not be passive. Most times, engage users by ending with a question or suggested next step.\n\n## Response Guideline\n- [Overcome ASR errors] This is a real-time transcript, expect there to be errors. If you can guess what the user is trying to say,  then guess and respond. When you must ask for clarification, pretend that you heard the voice and be colloquial (use phrases like \"didn't catch that\", \"some noise\", \"pardon\", \"you're coming through choppy\", \"static in your speech\", \"voice is cutting in and out\"). Do not ever mention \"transcription error\", and don't repeat yourself.\n- [Always stick to your role] Think about what your role can and cannot do. If your role cannot do something, try to steer the conversation back to the goal of the conversation and to your role. Don't repeat yourself in doing this. You should still be creative, human-like, and lively.\n- [Create smooth conversation] Your response should both fit your role and fit into the live calling session to create a human-like conversation. You respond directly to what the user just said.\n\n## Role\n"
  ++ agentPrompt

/-- The synthetic user message appended for `reminder_required` (line 244). -/
def reminderMessage : String :=
  "(Now the user has not responded in a while, you would say:)"

/-- `ConversationToChatRequestMessages` (lines 198-207): map each turn,
`agent` to the `assistant` role, anything else to `user`, content kept. -/
def ConversationToChatRequestMessages (conversation : List Utterance) : List ChatMessage :=
  conversation.map (fun turn =>
    { role := if turn.role = "agent" then "assistant" else "user"
      content := turn.content })

/-- `PreparePrompt` (lines 220-250): one system message, then the mapped
transcript, then the reminder instruction when the interaction type is
`reminder_required`. -/
def PreparePrompt (request : RetellRequest) : List ChatMessage :=
  let transcript := ConversationToChatRequestMessages request.transcript
  let base := { role := "system", content := systemPromptContent } :: transcript
  if request.interaction_type = "reminder_required" then
    base ++ [{ role := "user", content := reminderMessage }]
  else
    base

/-! ## The drafting cycle -/

/-- The running state and output of the `for await (const event of events)`
loop of `DraftResponse`. -/
structure RunResult where
  message : List (String × JsVal)
  funcCall : JsVal
  frames : List RetellResponse
  errored : Bool
deriving Repr

/-- The event loop of `DraftResponse` (lines 330-368), one event at a time:
merge the event into the accumulated message (a throw there — empty
`choices`, `null` delta — ends the loop and is caught); on
`finish_reason == "function_call"` record `message.function_call` into
`funcCall` and emit nothing; otherwise emit one partial frame carrying
`delta.content` when it is truthy.  The emitted frames are listed in
emission order; `errored` records whether the loop was ended by a throw. -/
def runStream (rid : Nat) (message : List (String × JsVal)) (funcCall : JsVal) :
    List ChatCompletionChunk → RunResult
  | [] => ⟨message, funcCall, [], false⟩
  | event :: rest =>
      match messageReducer message event with
      | none => ⟨message, funcCall, [], true⟩
      | some message1 =>
          match event.choices with
          | [] => ⟨message1, funcCall, [], true⟩
          | choice :: _ =>
              if choice.finish_reason = some "function_call" then
                runStream rid message1
                  ((lookupField message1 "function_call").getD .undefined) rest
              else
                let delta := choice.delta
                let contentV := (getProp delta "content").getD .undefined
                if jsTruthy delta && jsTruthy contentV then
                  let r := runStream rid message1 funcCall rest
                  ⟨r.message, r.funcCall,
                    ⟨rid, contentV, false, false⟩ :: r.frames, r.errored⟩
                else
                  runStream rid message1 funcCall rest

/-- The tool-result frame of the `finally` block (lines 379-386). -/
def toolResultFrame (rid : Nat) (result : JsVal) : RetellResponse :=
  { response_id := rid
    content := .str ("The function call result is: " ++ ((jsonStringify result).getD "undefined"))
    content_complete := false
    end_call := false }

/-- The terminal frame of the `finally` block (lines 392-397). -/
def finalFrame (rid : Nat) : RetellResponse :=
  { response_id := rid, content := .str "", content_complete := true, end_call := false }

/-- One drafting cycle `DraftResponse(request, ws)` (lines 285-401).  The
provider stream is modelled as the list of chunks the `for await` loop
receives, plus a flag for a transport error thrown after them (a stream
that fails to open is the empty list with the flag set; the flag cannot
influence the output because the `catch` only logs).  The result is the
ordered list of frames passed to `ws.send` together with the error, if
any, escaping the method: the `finally` block awaits `callFunction`
without a surrounding try/catch, so a tool-execution failure rejects the
promise returned by `DraftResponse` after the earlier frames were sent. -/
def DraftResponse (request : RetellRequest) (events : List ChatCompletionChunk)
    (streamErrorAtEnd : Bool) : List RetellResponse × Option JsError :=
  if request.interaction_type = "update_only" then ([], none)
  else
    let r := runStream request.response_id [] .undefined events
    if jsTruthy r.funcCall then
      match callFunction r.funcCall with
      | .ok result => (r.frames ++ [toolResultFrame request.response_id result], none)
      | .error e => (r.frames, some e)
    else
      (r.frames ++ [finalFrame request.response_id], none)

/-! ## Heap-level model of the merge

`reduceJs` above is the functional extract of `messageReducer`; to settle
whether the merge mutates its `previous` argument the same code is
rendered once more over an explicit heap.  Objects and arrays live in a
heap (addresses are list indices, allocation appends); `{...acc}` is a
shallow copy into a fresh address, `acc[key] = v` is a field write at an
address.  The spread of a plain object always yields a plain object, and
the recursion target of the merge is never an array (the code checks
`!Array.isArray`). -/

/-- A JS runtime value at heap level: primitives are immutable, objects and
arrays are references into the heap. -/
inductive HVal where
  | undefined : HVal
  | null : HVal
  | bool (b : Bool) : HVal
  | num (n : Int) : HVal
  | str (s : String) : HVal
  | ref (a : Nat) : HVal
deriving Repr, DecidableEq

/-- One heap record: an object or array with its ordered own fields (array
elements are stored under their index keys). -/
structure HObj where
  isArray : Bool
  fields : List (String × HVal)
deriving Repr, DecidableEq

/-- The heap: the record at address `a` is the list entry at index `a`. -/
abbrev Heap := List HObj

/-- First binding of key `k` at heap level. -/
def hLookup (fields : List (String × HVal)) (k : String) : Option HVal :=
  match fields with
  | [] => none
  | (k₀, v₀) :: rest => if k₀ = k then some v₀ else hLookup rest k

/-- Heap-level JS assignment into a field list. -/
def hSet (fields : List (String × HVal)) (k : String) (v : HVal) :
    List (String × HVal) :=
  match fields with
  | [] => [(k, v)]
  | (k₀, v₀) :: rest =>
      if k₀ = k then (k₀, v) :: rest else (k₀, v₀) :: hSet rest k v

/-- The mutation `o[k] = v` performed on the record at address `a`. -/
def heapWrite (h : Heap) (a : Nat) (k : String) (v : HVal) : Heap :=
  match h[a]? with
  | some o => h.set a ⟨o.isArray, hSet o.fields k v⟩
  | none => h

/-- `Object.entries` at heap level. -/
def hEntries (h : Heap) : HVal → Option (List (String × HVal))
  | .undefined => none
  | .null => none
  | .bool _ => some []
  | .num _ => some []
  | .str s => some ((s.toList.enum).map (fun p => (toString p.1, .str (charStr p.2))))
  | .ref a => (h[a]?).map HObj.fields

/-- The entry loop at heap level, parameterised by the recursive merge
`rec` for the nested-object branch, writing into the fresh copy at `a`:
set when absent or `null`, concatenate strings, recurse (which itself
copies) when the existing value refers to a non-array object. -/
def reduceHeapFoldWith (rec : Heap → Nat → HVal → Option (Heap × Nat)) :
    Heap → Nat → List (String × HVal) → Option (Heap × Nat)
  | h, a, [] => some (h, a)
  | h, a, (k, v) :: rest =>
      match h[a]? with
      | none => none
      | some o =>
          match hLookup o.fields k with
          | none => reduceHeapFoldWith rec (heapWrite h a k v) a rest
          | some .undefined => reduceHeapFoldWith rec (heapWrite h a k v) a rest
          | some .null => reduceHeapFoldWith rec (heapWrite h a k v) a rest
          | some (.str s) =>
              match v with
              | .str t => reduceHeapFoldWith rec (heapWrite h a k (.str (s ++ t))) a rest
              | _ => reduceHeapFoldWith rec h a rest
          | some (.ref b) =>
              match h[b]? with
              | none => none
              | some bo =>
                  if bo.isArray then reduceHeapFoldWith rec h a rest
                  else
                    match rec h b v with
                    | none => none
                    | some (h2, m) =>
                        reduceHeapFoldWith rec (heapWrite h2 a k (.ref m)) a rest
          | some (.bool _) => reduceHeapFoldWith rec h a rest
          | some (.num _) => reduceHeapFoldWith rec h a rest

/-- The inner `reduce` of `messageReducer`, heap level: shallow-copy the
accumulator into a fresh address (`acc = {...acc}`), then fold the entries
of the delta, mutating only the fresh copy. -/
def reduceHeap : Nat → Heap → Nat → HVal → Option (Heap × Nat)
  | 0, _, _, _ => none
  | fuel + 1, h, accAddr, delta =>
      match h[accAddr]? with
      | none => none
      | some accObj =>
          let a := h.length
          let h1 := h ++ [⟨false, accObj.fields⟩]
          match hEntries h1 delta with
          | none => none
          | some es => reduceHeapFoldWith (reduceHeap fuel) h1 a es

/-! ## Basic lemmas about field lists -/

theorem lookupField_setField (fields : List (String × JsVal)) (k₀ k : String) (v : JsVal) :
    lookupField (setField fields k₀ v) k =
      if k₀ = k then some v else lookupField fields k := by
  induction fields with
  | nil =>
      by_cases h : k₀ = k <;> simp [setField, lookupField, h]
  | cons p rest ih =>
      obtain ⟨k₁, v₁⟩ := p
      by_cases h1 : k₁ = k₀
      · subst h1
        by_cases h2 : k₁ = k <;> simp [setField, lookupField, h2]
      · by_cases h2 : k₁ = k
        · subst h2
          have h3 : ¬ k₀ = k₁ := fun hh => h1 hh.symm
          simp [setField, lookupField, h1, h3]
        · simp [setField, lookupField, h1, h2, ih]

/-! ## C10: search with the empty string -/

/-- The empty string is a substring of every string. -/
theorem strIncludes_empty (s : String) : strIncludes s "" = true := by
  unfold strIncludes
  rw [List.any_eq_true]
  exact ⟨0, by simp, by simp [List.isPrefixOf]⟩

/-- C10: calling the `search` handler with the empty string as the name
argument returns the `{name, id}` pairs of every book in the backing
dataset, in dataset order, because substring matching accepts the empty
string for every name. -/
theorem search_empty_string_returns_all_books :
    search (.str "") = .arr (db.map bookRef) ∧ (∀ s, strIncludes s "" = true) := by
  refine ⟨?_, strIncludes_empty⟩
  unfold search
  have hfilter : db.filter (fun item => strIncludes item.name (jsToString (.str ""))) = db := by
    apply List.filter_eq_self.mpr
    intro item _
    simpa [jsToString] using strIncludes_empty item.name
  rw [hfilter]

/-! ## C8: the get handler on an unmatched id -/

/-- C8 counterexample: for the id `"zz"`, which matches no book, the `get`
handler returns normally (with `undefined`) and the dispatched tool call
succeeds — it does not fail with a not-found error, contradicting the
claim that an unmatched lookup fails rather than returning a value. -/
theorem get_unmatched_id_returns_not_fails :
    get (.str "zz") = .undefined
    ∧ callFunction (.obj [("name", .str "get"),
        ("arguments", .str "\x7b\"id\":\"zz\"\x7d")]) = .ok .undefined
    ∧ toolResultFrame 5 .undefined =
        { response_id := 5, content := .str "The function call result is: undefined"
          content_complete := false, end_call := false } :=
  ⟨rfl, rfl, rfl⟩

/-- C8 amended: for every id value that matches no book in the backing
dataset, the `get` handler returns `undefined` — the runtime erases the
non-null assertion on `db.find(...)!`, so no error is raised and the caller
receives no value for the lookup. -/
theorem get_unmatched_id_returns_undefined (idv : JsVal)
    (h : ∀ item ∈ db, strictEqStr idv item.id = false) :
    get idv = .undefined := by
  unfold get
  rw [List.find?_eq_none.mpr (fun item hm => by simp [h item hm])]

/-- Witness for C8's amended theorem at the concrete id `"zz"`. -/
theorem get_unmatched_id_returns_undefined_witness :
    get (.str "zz") = .undefined :=
  get_unmatched_id_returns_undefined (.str "zz") (by decide)

/-! ## Lemmas about the event loop -/

/-- Every frame the event loop emits is a partial frame. -/
theorem runStream_frames_not_complete (rid : Nat) (events : List ChatCompletionChunk) :
    ∀ (message : List (String × JsVal)) (funcCall : JsVal),
      ∀ f ∈ (runStream rid message funcCall events).frames, f.content_complete = false := by
  induction events with
  | nil =>
      intro m fc f hf
      simp [runStream] at hf
  | cons e rest ih =>
      intro m fc f hf
      simp only [runStream] at hf
      split at hf
      · simp at hf
      · split at hf
        · simp at hf
        · split at hf
          · exact ih _ _ f hf
          · split at hf
            · simp at hf
              rcases hf with rfl | hf
              · rfl
              · exact ih _ _ f hf
            · exact ih _ _ f hf

/-- The frames one event contributes: nothing on a `function_call` finish
or an untruthy content delta, else one partial frame with the delta's
content.  This expression does not consult the accumulated state. -/
def chunkEmits (rid : Nat) (event : ChatCompletionChunk) : List RetellResponse :=
  match event.choices with
  | [] => []
  | choice :: _ =>
      if choice.finish_reason = some "function_call" then []
      else
        let contentV := (getProp choice.delta "content").getD .undefined
        if jsTruthy choice.delta && jsTruthy contentV then
          [⟨rid, contentV, false, false⟩]
        else []

/-- C6 amended: per-event content emission is not suspended after a tool
call is detected.  As long as the loop does not throw, the emitted frames
are exactly the per-event frames of every event of the stream — each event
is handled independently of any earlier `function_call` finish, so an
event carrying a truthy content delta after the detection still emits a
partial frame (only the detecting events themselves emit nothing). -/
theorem runStream_emission_is_per_event (rid : Nat) (events : List ChatCompletionChunk) :
    ∀ (message : List (String × JsVal)) (funcCall : JsVal),
      (runStream rid message funcCall events).errored = false →
      (runStream rid message funcCall events).frames = events.flatMap (chunkEmits rid) := by
  induction events with
  | nil =>
      intro m fc _
      simp [runStream]
  | cons e rest ih =>
      intro m fc herr
      cases hmr : messageReducer m e with
      | none => simp [runStream, hmr] at herr
      | some m1 =>
          cases hc : e.choices with
          | nil => simp [runStream, hmr, hc] at herr
          | cons choice cs =>
              by_cases hfin : choice.finish_reason = some "function_call"
              · simp only [runStream, hmr, hc, if_pos hfin] at herr ⊢
                rw [List.flatMap_cons]
                have hck : chunkEmits rid e = [] := by
                  simp only [chunkEmits, hc, if_pos hfin]
                rw [hck, List.nil_append]
                exact ih _ _ herr
              · by_cases htr : (jsTruthy choice.delta &&
                    jsTruthy ((getProp choice.delta "content").getD .undefined)) = true
                · simp only [runStream, hmr, hc, if_neg hfin, htr, if_true] at herr ⊢
                  rw [List.flatMap_cons]
                  have hck : chunkEmits rid e =
                      [⟨rid, (getProp choice.delta "content").getD .undefined, false, false⟩] := by
                    simp only [chunkEmits, hc, if_neg hfin, htr, if_true]
                  rw [hck, List.singleton_append]
                  exact congrArg _ (ih _ _ herr)
                · simp only [runStream, hmr, hc, if_neg hfin, htr, if_false,
                    Bool.false_eq_true] at herr ⊢
                  rw [List.flatMap_cons]
                  have hck : chunkEmits rid e = [] := by
                    simp only [chunkEmits, hc, if_neg hfin, htr, if_false, Bool.false_eq_true]
                  rw [hck, List.nil_append]
                  exact ih _ _ herr

/-! ## C2: cycles without a tool call -/

/-- C2: for every drafting cycle with `interaction_type != "update_only"`
in which no tool call is captured, the cycle emits exactly one frame with
`content_complete = true` and `content = ""` after all partial content
frames, for every possible provider stream (zero content events, a normal
end, or a stream that fails to open or throws mid-iteration — the throw is
caught and never escapes `DraftResponse`, whose error component is
`none`). -/
theorem no_tool_cycle_emits_single_terminal_frame
    (request : RetellRequest) (events : List ChatCompletionChunk) (streamErrorAtEnd : Bool)
    (hkind : request.interaction_type ≠ "update_only")
    (hfc : jsTruthy (runStream request.response_id [] .undefined events).funcCall = false) :
    DraftResponse request events streamErrorAtEnd =
      ((runStream request.response_id [] .undefined events).frames
        ++ [finalFrame request.response_id], none)
    ∧ (∀ f ∈ (runStream request.response_id [] .undefined events).frames,
        f.content_complete = false)
    ∧ (finalFrame request.response_id).content_complete = true
    ∧ (finalFrame request.response_id).content = .str "" := by
  refine ⟨?_, runStream_frames_not_complete _ _ _ _, rfl, rfl⟩
  simp only [DraftResponse, if_neg hkind, hfc, Bool.false_eq_true, if_false]

/-- Witness for C2 at a concrete cycle: a stream that fails to open (no
events delivered, transport error flagged) still produces exactly the
terminal frame and no escaping error. -/
theorem no_tool_cycle_emits_single_terminal_frame_witness :
    DraftResponse ⟨1, [], "response_required"⟩ [] true = ([finalFrame 1], none) := by
  have h := no_tool_cycle_emits_single_terminal_frame ⟨1, [], "response_required"⟩ [] true
    (by decide) (by rfl)
  exact h.1.trans (by rfl)

/-! ## C1: cycles with a tool call -/

/-- The stream of C1's counterexample: one event whose finish reason
signals a tool call but whose deltas never carried a `function_call`
field, so the captured `funcCall` is `undefined`. -/
def c1Chunk : ChatCompletionChunk := ⟨[⟨.obj [], some "function_call"⟩]⟩

/-- C1 counterexample: a drafting cycle that detects a tool call (an event
with `finish_reason == "function_call"`) can still emit a frame with
`content_complete = true`: when no `function_call` field was accumulated,
the captured `funcCall` is `undefined` and the finalizer takes the
terminal-frame branch, contradicting the claim that such a cycle emits
zero terminal frames. -/
theorem tool_detected_cycle_emits_terminal_frame :
    c1Chunk.choices.map Choice.finish_reason = [some "function_call"]
    ∧ DraftResponse ⟨7, [], "response_required"⟩ [c1Chunk] false = ([finalFrame 7], none)
    ∧ (finalFrame 7).content_complete = true :=
  ⟨rfl, rfl, rfl⟩

/-- C1 amended: for every drafting cycle (interaction type not
`update_only`) in which a tool call is detected and the captured
`function_call` value is truthy, the cycle emits zero frames with
`content_complete = true`; it emits at most one tool-result frame, that
frame has `content_complete = false`, and it is emitted exactly when
`callFunction` did not raise (on failure the cycle emits no finalize frame
at all and the error escapes). -/
theorem tool_call_cycle_frames (request : RetellRequest) (events : List ChatCompletionChunk)
    (streamErrorAtEnd : Bool)
    (hkind : request.interaction_type ≠ "update_only")
    (hfc : jsTruthy (runStream request.response_id [] .undefined events).funcCall = true) :
    (∀ f ∈ (DraftResponse request events streamErrorAtEnd).1, f.content_complete = false)
    ∧ (∀ result,
        callFunction (runStream request.response_id [] .undefined events).funcCall = .ok result →
        DraftResponse request events streamErrorAtEnd =
          ((runStream request.response_id [] .undefined events).frames
            ++ [toolResultFrame request.response_id result], none))
    ∧ (∀ e,
        callFunction (runStream request.response_id [] .undefined events).funcCall = .error e →
        DraftResponse request events streamErrorAtEnd =
          ((runStream request.response_id [] .undefined events).frames, some e)) := by
  have hdr : DraftResponse request events streamErrorAtEnd =
      match callFunction (runStream request.response_id [] .undefined events).funcCall with
      | .ok result =>
          ((runStream request.response_id [] .undefined events).frames
            ++ [toolResultFrame request.response_id result], none)
      | .error e => ((runStream request.response_id [] .undefined events).frames, some e) := by
    simp only [DraftResponse, if_neg hkind, hfc, if_true]
  refine ⟨?_, ?_, ?_⟩
  · intro f hf
    rw [hdr] at hf
    rcases hcf : callFunction (runStream request.response_id [] .undefined events).funcCall
      with e | result
    · rw [hcf] at hf
      exact runStream_frames_not_complete _ _ _ _ f hf
    · rw [hcf] at hf
      dsimp only at hf
      rcases List.mem_append.mp hf with hf | hf
      · exact runStream_frames_not_complete _ _ _ _ f hf
      · rw [List.mem_singleton.mp hf]
        rfl
  · intro result hres
    rw [hdr, hres]
  · intro e he
    rw [hdr, he]

/-- The stream of C1's witness: a detected `search` call with an argument
string matching no book. -/
def c1WitnessChunk : ChatCompletionChunk :=
  ⟨[⟨.obj [("function_call",
      .obj [("name", .str "search"), ("arguments", .str "\x7b\"name\":\"zzz\"\x7d")])],
    some "function_call"⟩]⟩

/-- Witness for C1's amended theorem: the concrete detected `search` call
succeeds and the cycle emits exactly the one tool-result frame. -/
theorem tool_call_cycle_frames_witness :
    DraftResponse ⟨3, [], "response_required"⟩ [c1WitnessChunk] false =
      ([toolResultFrame 3 (.arr [])], none) := by
  have h := tool_call_cycle_frames ⟨3, [], "response_required"⟩ [c1WitnessChunk] false
    (by decide) (by rfl)
  exact (h.2.1 (.arr []) (by rfl)).trans (by rfl)

/-! ## C3: failing tool execution -/

/-- The stream of C3's counterexample: a detected tool call whose name
matches no registered handler. -/
def c3Chunk : ChatCompletionChunk :=
  ⟨[⟨.obj [("function_call",
      .obj [("name", .str "frobnicate"), ("arguments", .str "\x7b\x7d")])],
    some "function_call"⟩]⟩

/-- C3 counterexample: when tool execution fails (here: unknown handler
name), the error is not caught — it escapes `DraftResponse` (the promise
rejects with it), contradicting the claim that the failure is caught and
the cycle still completes normally. -/
theorem tool_failure_escapes_draft_response :
    DraftResponse ⟨7, [], "response_required"⟩ [c3Chunk] false =
      ([], some .noFunctionFound) :=
  rfl

/-- C3 amended: when a tool call was captured but executing it fails (bad
argument JSON, unknown handler name, or a throwing property access), no
tool-result frame and no terminal frame is emitted — the caller receives
only the partial frames already sent — and the error propagates out of
`DraftResponse`: the `finally` block awaits `callFunction` without a
try/catch, so the failure rejects the returned promise instead of being
caught and logged. -/
theorem tool_failure_propagates (request : RetellRequest) (events : List ChatCompletionChunk)
    (streamErrorAtEnd : Bool)
    (hkind : request.interaction_type ≠ "update_only")
    (hfc : jsTruthy (runStream request.response_id [] .undefined events).funcCall = true)
    (e : JsError)
    (herr : callFunction (runStream request.response_id [] .undefined events).funcCall = .error e) :
    DraftResponse request events streamErrorAtEnd =
      ((runStream request.response_id [] .undefined events).frames, some e) := by
  simp only [DraftResponse, if_neg hkind, hfc, if_true, herr]

/-- Witness for C3's amended theorem at the concrete unknown-handler
stream. -/
theorem tool_failure_propagates_witness :
    DraftResponse ⟨9, [], "response_required"⟩ [c3Chunk] true =
      ([], some .noFunctionFound) := by
  have h := tool_failure_propagates ⟨9, [], "response_required"⟩ [c3Chunk] true
    (by decide) (by rfl) .noFunctionFound (by rfl)
  exact h.trans (by rfl)

/-! ## C6: no suspension of content emission after detection -/

/-- The stream of C6's counterexample: a tool call is detected by the
first event, and a later event still carries a content delta. -/
def c6Events : List ChatCompletionChunk :=
  [ ⟨[⟨.obj [("function_call",
        .obj [("name", .str "search"), ("arguments", .str "\x7b\"name\":\"zzz\"\x7d")])],
      some "function_call"⟩]⟩
  , ⟨[⟨.obj [("content", .str "hi")], none⟩]⟩ ]

/-- C6 counterexample: after the first event signals
`finish_reason == "function_call"`, the later content-bearing event still
emits a partial content frame — emission is not suspended for the
remainder of the cycle, contradicting the claim. -/
theorem content_frame_emitted_after_tool_detection :
    (c6Events.map (fun e => e.choices.map Choice.finish_reason))
      = [[some "function_call"], [none]]
    ∧ (runStream 7 [] .undefined c6Events).frames = [⟨7, .str "hi", false, false⟩] :=
  ⟨rfl, rfl⟩

/-- Witness for C6's amended theorem (`runStream_emission_is_per_event`)
at the concrete detection-then-content stream. -/
theorem runStream_emission_is_per_event_witness :
    (runStream 7 [] .undefined c6Events).frames = c6Events.flatMap (chunkEmits 7) :=
  runStream_emission_is_per_event 7 c6Events [] .undefined (by rfl)

/-! ## C4: type-mismatched deltas -/

/-- The previous accumulated message of C4's counterexample. -/
def c4Prev : List (String × JsVal) := [("function_call", .obj [("name", .str "f")])]

/-- The chunk of C4's counterexample: its delta holds a string where the
accumulated message holds an object. -/
def c4Chunk : ChatCompletionChunk := ⟨[⟨.obj [("function_call", .str "xy")], none⟩]⟩

/-- The merged message of C4's counterexample. -/
def c4Result : List (String × JsVal) :=
  [("function_call", .obj [("name", .str "f"), ("0", .str "x"), ("1", .str "y")])]

/-- C4 counterexample: a delta whose value for a field is a string while
the accumulated value is a non-array object is not a no-op: the code
recurses into the object with the string, and `Object.entries` of a string
yields its index/character pairs, which are inserted — the accumulated
value for the field changes. -/
theorem object_field_changed_by_string_delta :
    messageReducer c4Prev c4Chunk = some c4Result
    ∧ lookupField c4Result "function_call" ≠ lookupField c4Prev "function_call" :=
  ⟨rfl, fun h => absurd (congrArg (Option.map jsSize) h) (by decide)⟩

/-- Whether a value is a string. -/
def isStrVal : JsVal → Bool
  | .str _ => true
  | _ => false

/-- The existing-value/delta-value shapes for which the merge is
guaranteed to leave the existing accumulated field untouched: an existing
string with a non-string delta value, an existing array, or an existing
primitive scalar.  An existing non-array object is deliberately not
included — the code recurses into it whatever the delta value. -/
def mismatchKeeps : Option JsVal → JsVal → Bool
  | some (.str _), v => !(isStrVal v)
  | some (.arr _), _ => true
  | some (.bool _), _ => true
  | some (.num _), _ => true
  | _, _ => false

/-- Entry-loop core of C4's amended theorem: if every delta entry for key
`k` is in a shape of `mismatchKeeps` against the accumulated value, the
fold leaves field `k` exactly as it was. -/
theorem reduceFoldWith_untouched
    (rec : List (String × JsVal) → JsVal → Option (List (String × JsVal))) (k : String) :
    ∀ (es acc res : _), reduceFoldWith rec acc es = some res →
      (∀ v, (k, v) ∈ es → mismatchKeeps (lookupField acc k) v = true) →
      lookupField res k = lookupField acc k := by
  intro es
  induction es with
  | nil =>
      intro acc res h _
      cases h
      rfl
  | cons p rest ih =>
      intro acc res h hmis
      obtain ⟨k₀, v₀⟩ := p
      have hkeep : k₀ = k → mismatchKeeps (lookupField acc k) v₀ = true :=
        fun hk => hmis v₀ (by rw [hk]; exact List.mem_cons_self _ _)
      have htail : ∀ v, (k, v) ∈ rest → mismatchKeeps (lookupField acc k) v = true :=
        fun v hv => hmis v (List.mem_cons_of_mem _ hv)
      have hset : ∀ (w : JsVal), k₀ ≠ k →
          reduceFoldWith rec (setField acc k₀ w) rest = some res →
          lookupField res k = lookupField acc k := by
        intro w hk hr
        have hl : lookupField (setField acc k₀ w) k = lookupField acc k := by
          rw [lookupField_setField, if_neg hk]
        rw [← hl]
        exact ih _ _ hr (fun v hv => hl ▸ htail v hv)
      rcases hla : lookupField acc k₀ with _ | val
      · simp only [reduceFoldWith, hla] at h
        by_cases hk : k₀ = k
        · subst hk
          have := hkeep rfl
          rw [hla] at this
          simp [mismatchKeeps] at this
        · exact hset v₀ hk h
      · cases val with
        | undefined =>
            simp only [reduceFoldWith, hla] at h
            by_cases hk : k₀ = k
            · subst hk
              have := hkeep rfl
              rw [hla] at this
              simp [mismatchKeeps] at this
            · exact hset v₀ hk h
        | null =>
            simp only [reduceFoldWith, hla] at h
            by_cases hk : k₀ = k
            · subst hk
              have := hkeep rfl
              rw [hla] at this
              simp [mismatchKeeps] at this
            · exact hset v₀ hk h
        | str s =>
            simp only [reduceFoldWith, hla] at h
            cases v₀ with
            | str t =>
                by_cases hk : k₀ = k
                · subst hk
                  have := hkeep rfl
                  rw [hla] at this
                  simp [mismatchKeeps, isStrVal] at this
                · exact hset (.str (s ++ t)) hk h
            | undefined => exact ih _ _ h htail
            | null => exact ih _ _ h htail
            | bool b => exact ih _ _ h htail
            | num n => exact ih _ _ h htail
            | arr l => exact ih _ _ h htail
            | obj f => exact ih _ _ h htail
        | obj inner =>
            simp only [reduceFoldWith, hla] at h
            by_cases hk : k₀ = k
            · subst hk
              have := hkeep rfl
              rw [hla] at this
              simp [mismatchKeeps] at this
            · rcases hrec : rec inner v₀ with _ | merged
              · rw [hrec] at h
                cases h
              · rw [hrec] at h
                exact hset (.obj merged) hk h
        | arr l => exact ih _ _ (by simpa only [reduceFoldWith, hla] using h) htail
        | bool b => exact ih _ _ (by simpa only [reduceFoldWith, hla] using h) htail
        | num n => exact ih _ _ (by simpa only [reduceFoldWith, hla] using h) htail

/-- C4 amended: a delta field whose value type mismatches the existing
non-null accumulated value is left untouched when the existing value is a
string (incoming non-string), an array, or a primitive scalar; but an
existing non-array object is not protected — the merge recurses into it
with whatever the delta holds (see the counterexample, where an incoming
string changes the object). -/
theorem mismatched_field_left_untouched (previous : List (String × JsVal))
    (choice : Choice) (tail : List Choice) (result : List (String × JsVal))
    (k : String) (es : List (String × JsVal))
    (hred : messageReducer previous ⟨choice :: tail⟩ = some result)
    (hes : jsEntries choice.delta = some es)
    (hmis : ∀ v, (k, v) ∈ es → mismatchKeeps (lookupField previous k) v = true) :
    lookupField result k = lookupField previous k := by
  have hstep : messageReducer previous ⟨choice :: tail⟩ =
      reduceFoldWith (reduceJs (jsSizeFields previous + jsSize choice.delta))
        previous es := by
    show reduceJs (reducerFuel previous choice.delta) previous choice.delta = _
    simp only [reducerFuel, reduceJs, hes]
  rw [hstep] at hred
  exact reduceFoldWith_untouched _ k es previous result hred hmis

/-- Witness for C4's amended theorem: an existing string field `"a"`
receiving a number delta is untouched, while the rest of the delta (a new
field `"b"`) is still merged. -/
theorem mismatched_field_left_untouched_witness :
    messageReducer [("a", JsVal.str "x")] ⟨[⟨.obj [("a", .num 5), ("b", .str "y")], none⟩]⟩
      = some [("a", JsVal.str "x"), ("b", JsVal.str "y")]
    ∧ lookupField [("a", JsVal.str "x"), ("b", JsVal.str "y")] "a"
        = lookupField [("a", JsVal.str "x")] "a" := by
  refine ⟨rfl, ?_⟩
  refine mismatched_field_left_untouched [("a", JsVal.str "x")]
    ⟨.obj [("a", .num 5), ("b", .str "y")], none⟩ [] _ "a"
    [("a", .num 5), ("b", .str "y")] rfl rfl ?_
  intro v hv
  rcases List.mem_cons.mp hv with hv | hv
  · cases hv
    decide
  · rcases List.mem_cons.mp hv with hv | hv
    · have hab : "a" = "b" := congrArg Prod.fst hv
      exact absurd hab (by decide)
    · cases hv

/-! ## C5: sequences of purely string-valued deltas -/

/-- One flat string-valued delta, wrapped as a provider chunk. -/
def flatChunk (d : List (String × String)) : ChatCompletionChunk :=
  ⟨[⟨.obj (d.map (fun p => (p.1, JsVal.str p.2))), none⟩]⟩

/-- The fragments delta `d` contributes to field `k`, in order. -/
def fieldFrags (d : List (String × String)) (k : String) : List String :=
  (d.filter (fun p => p.1 = k)).map Prod.snd

/-- All fragments for field `k` across a delta sequence, in arrival order. -/
def allFrags (ds : List (List (String × String))) (k : String) : List String :=
  (ds.map (fun d => fieldFrags d k)).flatten

/-- Concatenation of a list of strings in order. -/
def joinAll : List String → String
  | [] => ""
  | s :: rest => s ++ joinAll rest

/-- The value a string field accumulates from a base value and a list of
appended fragments: the base alone when no fragment arrived, else the
concatenation. -/
def catField : Option JsVal → List String → Option JsVal
  | base, [] => base
  | none, s :: rest => some (.str (joinAll (s :: rest)))
  | some (.str s₀), s :: rest => some (.str (s₀ ++ joinAll (s :: rest)))
  | some v, _ :: _ => some v

/-- A field that is absent or holds a string. -/
def isStrField : Option JsVal → Prop
  | none => True
  | some (.str _) => True
  | _ => False

theorem catField_nil (base : Option JsVal) : catField base [] = base := by
  rcases base with _ | v
  · rfl
  · cases v <;> rfl

theorem joinAll_append (a b : List String) :
    joinAll (a ++ b) = joinAll a ++ joinAll b := by
  induction a with
  | nil => simp [joinAll]
  | cons s rest ih => simp [joinAll, ih, String.append_assoc]

theorem isStrField_catField (base : Option JsVal) (l : List String)
    (h : isStrField base) : isStrField (catField base l) := by
  cases l with
  | nil => rw [catField_nil]; exact h
  | cons s rest =>
      rcases base with _ | v
      · trivial
      · cases v <;> first | trivial | exact h

theorem catField_catField (base : Option JsVal) (l₁ l₂ : List String)
    (h : isStrField base) :
    catField (catField base l₁) l₂ = catField base (l₁ ++ l₂) := by
  cases l₁ with
  | nil => simp [catField_nil]
  | cons s rest =>
      cases l₂ with
      | nil => simp [catField_nil]
      | cons t rest₂ =>
          rcases base with _ | v
          · simp [catField, joinAll_append, joinAll, String.append_assoc]
          · cases v <;> simp [isStrField] at h <;>
              simp [catField, joinAll_append, joinAll, String.append_assoc]

/-- Entry-loop core of C5: over a flat string-valued delta, starting from
an accumulator whose fields are all absent-or-string, the fold always
succeeds and every field ends as the concatenation of its old value with
its fragments of the delta, in order. -/
theorem reduceFoldWith_strings
    (rec : List (String × JsVal) → JsVal → Option (List (String × JsVal))) :
    ∀ (d : List (String × String)) (acc : List (String × JsVal)),
      (∀ k, isStrField (lookupField acc k)) →
      ∃ res, reduceFoldWith rec acc (d.map (fun p => (p.1, JsVal.str p.2))) = some res
        ∧ ∀ k, lookupField res k = catField (lookupField acc k) (fieldFrags d k) := by
  intro d
  induction d with
  | nil =>
      intro acc hstr
      exact ⟨acc, rfl, fun k => (catField_nil _).symm⟩
  | cons p rest ih =>
      intro acc hstr
      obtain ⟨k₀, v₀⟩ := p
      have hbranch := hstr k₀
      rcases hla : lookupField acc k₀ with _ | val
      · -- absent: the field is set to the fragment
        obtain ⟨res, hres, heq⟩ := ih (setField acc k₀ (.str v₀)) (by
          intro k
          rw [lookupField_setField]
          by_cases hk : k₀ = k
          · simp [hk, isStrField]
          · simp [hk, hstr k])
        refine ⟨res, ?_, ?_⟩
        · simpa only [List.map_cons, reduceFoldWith, hla] using hres
        · intro k
          rw [heq k, lookupField_setField]
          by_cases hk : k₀ = k
          · subst hk
            rw [if_pos rfl, hla]
            have hfr : fieldFrags ((k₀, v₀) :: rest) k₀ = v₀ :: fieldFrags rest k₀ := by
              simp [fieldFrags, List.filter_cons]
            rw [hfr]
            rcases hfr2 : fieldFrags rest k₀ with _ | ⟨s, l⟩
            · simp [catField, joinAll]
            · simp [catField, joinAll]
          · rw [if_neg hk]
            have hfr : fieldFrags ((k₀, v₀) :: rest) k = fieldFrags rest k := by
              simp [fieldFrags, List.filter_cons, hk]
            rw [hfr]
      · rw [hla] at hbranch
        cases val <;> simp [isStrField] at hbranch
        rename_i s₀
        -- existing string: the fragment is appended
        obtain ⟨res, hres, heq⟩ := ih (setField acc k₀ (.str (s₀ ++ v₀))) (by
          intro k
          rw [lookupField_setField]
          by_cases hk : k₀ = k
          · simp [hk, isStrField]
          · simp [hk, hstr k])
        refine ⟨res, ?_, ?_⟩
        · simpa only [List.map_cons, reduceFoldWith, hla] using hres
        · intro k
          rw [heq k, lookupField_setField]
          by_cases hk : k₀ = k
          · subst hk
            rw [if_pos rfl, hla]
            have hfr : fieldFrags ((k₀, v₀) :: rest) k₀ = v₀ :: fieldFrags rest k₀ := by
              simp [fieldFrags, List.filter_cons]
            rw [hfr]
            rcases hfr2 : fieldFrags rest k₀ with _ | ⟨s, l⟩
            · simp [catField, joinAll]
            · simp [catField, joinAll, String.append_assoc]
          · rw [if_neg hk]
            have hfr : fieldFrags ((k₀, v₀) :: rest) k = fieldFrags rest k := by
              simp [fieldFrags, List.filter_cons, hk]
            rw [hfr]

/-- One flat chunk merged through `messageReducer` behaves as the fold of
its entries. -/
theorem messageReducer_flatChunk (acc : List (String × JsVal))
    (d : List (String × String)) :
    messageReducer acc (flatChunk d) =
      reduceFoldWith
        (reduceJs (jsSizeFields acc + jsSize (.obj (d.map (fun p => (p.1, JsVal.str p.2))))))
        acc (d.map (fun p => (p.1, JsVal.str p.2))) := by
  show reduceJs (reducerFuel acc (.obj (d.map (fun p => (p.1, JsVal.str p.2))))) acc
      (.obj (d.map (fun p => (p.1, JsVal.str p.2)))) = _
  simp only [reducerFuel, reduceJs, jsEntries]

/-- C5 core: folding flat string-valued deltas from any absent-or-string
accumulator succeeds and concatenates per field. -/
theorem accumulate_strings_aux :
    ∀ (ds : List (List (String × String))) (acc : List (String × JsVal)),
      (∀ k, isStrField (lookupField acc k)) →
      ∃ res, List.foldlM messageReducer acc (ds.map flatChunk) = some res
        ∧ ∀ k, lookupField res k = catField (lookupField acc k) (allFrags ds k) := by
  intro ds
  induction ds with
  | nil =>
      intro acc hstr
      exact ⟨acc, rfl, fun k => (catField_nil _).symm⟩
  | cons d rest ih =>
      intro acc hstr
      obtain ⟨mid, hmid, heqmid⟩ := reduceFoldWith_strings
        (reduceJs (jsSizeFields acc + jsSize (.obj (d.map (fun p => (p.1, JsVal.str p.2))))))
        d acc hstr
      have hstep : messageReducer acc (flatChunk d) = some mid := by
        rw [messageReducer_flatChunk]
        exact hmid
      obtain ⟨res, hres, heq⟩ := ih mid (by
        intro k
        rw [heqmid k]
        exact isStrField_catField _ _ (hstr k))
      refine ⟨res, ?_, ?_⟩
      · rw [List.map_cons, List.foldlM_cons, hstep]
        exact hres
      · intro k
        rw [heq k, heqmid k, catField_catField _ _ _ (hstr k)]
        have : allFrags (d :: rest) k = fieldFrags d k ++ allFrags rest k := by
          simp [allFrags]
        rw [this]

/-- C5: folding any finite sequence of deltas whose top-level fields are
all string-valued into an initially empty accumulated message with
`messageReducer` succeeds and yields, for each field, the concatenation of
that field's fragments in arrival order (absent when the field never
appeared). -/
theorem string_deltas_concatenate (ds : List (List (String × String))) :
    ∃ res, accumulate (ds.map flatChunk) = some res
      ∧ ∀ k, lookupField res k = catField none (allFrags ds k) := by
  obtain ⟨res, hres, heq⟩ := accumulate_strings_aux ds [] (fun k => trivial)
  exact ⟨res, hres, fun k => heq k⟩

/-! ## C7: the prepared prompt -/

/-- C7: for every transcript whose turns have roles in `{agent, user}`,
the prepared prompt is one prepended system message followed by the
transcript mapped 1:1 in order (`agent` to the `assistant` role, `user`
kept as `user`, content preserved), plus one trailing reminder message
exactly when the interaction type is `reminder_required` — so its length
is the transcript's length plus one, plus one more in the reminder case. -/
theorem prepare_prompt_shape (request : RetellRequest)
    (hroles : ∀ t ∈ request.transcript, t.role = "agent" ∨ t.role = "user") :
    (PreparePrompt request).length =
      request.transcript.length + 1
        + (if request.interaction_type = "reminder_required" then 1 else 0)
    ∧ (PreparePrompt request).head? =
        some { role := "system", content := systemPromptContent }
    ∧ ∀ i (hi : i < request.transcript.length),
        (PreparePrompt request)[i + 1]? =
          some { role :=
                   if (request.transcript.get ⟨i, hi⟩).role = "agent" then "assistant"
                   else "user"
               , content := (request.transcript.get ⟨i, hi⟩).content } := by
  have hmap : ∀ i (hi : i < request.transcript.length),
      (ConversationToChatRequestMessages request.transcript)[i]? =
        some { role :=
                 if (request.transcript.get ⟨i, hi⟩).role = "agent" then "assistant"
                 else "user"
             , content := (request.transcript.get ⟨i, hi⟩).content } := by
    intro i hi
    unfold ConversationToChatRequestMessages
    rw [List.getElem?_map, List.getElem?_eq_getElem hi]
    rfl
  have hlen : (ConversationToChatRequestMessages request.transcript).length =
      request.transcript.length := by
    simp [ConversationToChatRequestMessages]
  by_cases hrem : request.interaction_type = "reminder_required"
  · refine ⟨?_, ?_, ?_⟩
    · simp [PreparePrompt, hrem, hlen]
    · simp [PreparePrompt, hrem]
    · intro i hi
      have hi2 : i + 1 <
          ({ role := "system", content := systemPromptContent } ::
            ConversationToChatRequestMessages request.transcript).length := by
        simp [hlen]
        omega
      simp only [PreparePrompt, if_pos hrem]
      rw [List.getElem?_append_left hi2]
      simpa using hmap i hi
  · refine ⟨?_, ?_, ?_⟩
    · simp [PreparePrompt, hrem, hlen]
    · simp [PreparePrompt, hrem]
    · intro i hi
      simp only [PreparePrompt, if_neg hrem]
      simpa using hmap i hi

/-- Witness for C7 at a concrete two-turn transcript with a reminder. -/
theorem prepare_prompt_shape_witness :
    (PreparePrompt ⟨4, [⟨"user", "hi"⟩, ⟨"agent", "yo"⟩], "reminder_required"⟩).length = 4
    ∧ (PreparePrompt ⟨4, [⟨"user", "hi"⟩, ⟨"agent", "yo"⟩], "reminder_required"⟩)[2]? =
        some { role := "assistant", content := "yo" } := by
  have h := prepare_prompt_shape ⟨4, [⟨"user", "hi"⟩, ⟨"agent", "yo"⟩], "reminder_required"⟩
    (by intro t ht
        rcases List.mem_cons.mp ht with rfl | ht
        · exact Or.inr rfl
        · rcases List.mem_cons.mp ht with rfl | ht
          · exact Or.inl rfl
          · cases ht)
  refine ⟨by simpa using h.1, ?_⟩
  have h2 := h.2.2 1 (by decide)
  simpa using h2

/-! ## C9: the merge never mutates pre-existing objects -/

theorem heapWrite_length (h : Heap) (a : Nat) (k : String) (v : HVal) :
    (heapWrite h a k v).length = h.length := by
  unfold heapWrite
  rcases h[a]? with _ | o
  · rfl
  · simp [List.length_set]

theorem heapWrite_getElem?_ne (h : Heap) (a i : Nat) (k : String) (v : HVal)
    (hne : i ≠ a) :
    (heapWrite h a k v)[i]? = h[i]? := by
  unfold heapWrite
  rcases h[a]? with _ | o
  · rfl
  · exact List.getElem?_set_ne (fun hh => hne hh.symm)

/-- Joint preservation statement: the heap-level merge only allocates —
every address that existed before the call holds the same record after it
(for the inner fold, every address other than the fresh copy `a` it was
given to mutate). -/
theorem reduceHeap_preserves_aux : ∀ fuel : Nat,
    (∀ h a delta h2 r, reduceHeap fuel h a delta = some (h2, r) →
        h.length ≤ h2.length ∧ ∀ i < h.length, h2[i]? = h[i]?)
    ∧ (∀ h a es h2 r, reduceHeapFoldWith (reduceHeap fuel) h a es = some (h2, r) →
        h.length ≤ h2.length ∧ ∀ i < h.length, i ≠ a → h2[i]? = h[i]?) := by
  intro fuel
  induction fuel with
  | zero =>
      have hP : ∀ (h : Heap) a delta h2 r, reduceHeap 0 h a delta = some (h2, r) →
          h.length ≤ h2.length ∧ ∀ i < h.length, h2[i]? = h[i]? := by
        intro h a delta h2 r hr
        simp [reduceHeap] at hr
      refine ⟨hP, ?_⟩
      intro h a es
      induction es generalizing h with
      | nil =>
          intro h2 r hr
          obtain ⟨rfl, rfl⟩ : h = h2 ∧ a = r := by
            simpa [reduceHeapFoldWith] using hr
          exact ⟨le_refl _, fun i _ _ => rfl⟩
      | cons p rest ih =>
          intro h2 r hr
          obtain ⟨k, v⟩ := p
          rcases hga : h[a]? with _ | o
          · simp [reduceHeapFoldWith, hga] at hr
          · have hwstep : ∀ (h' : Heap),
                reduceHeapFoldWith (reduceHeap 0) h' a rest = some (h2, r) →
                h'.length = h.length →
                (∀ i < h.length, i ≠ a → h'[i]? = h[i]?) →
                h.length ≤ h2.length ∧ ∀ i < h.length, i ≠ a → h2[i]? = h[i]? := by
              intro h' hr' hlen hpre
              obtain ⟨hle, heq⟩ := ih h' h2 r hr'
              exact ⟨hlen ▸ hle, fun i hi hne =>
                ((heq i (hlen ▸ hi) hne).trans (hpre i hi hne))⟩
            simp only [reduceHeapFoldWith, hga] at hr
            rcases hlk : hLookup o.fields k with _ | val
            · simp only [hlk] at hr
              exact hwstep _ hr (heapWrite_length ..)
                (fun i hi hne => heapWrite_getElem?_ne h a i k v hne)
            · simp only [hlk] at hr
              cases val with
              | undefined =>
                  exact hwstep _ hr (heapWrite_length ..)
                    (fun i hi hne => heapWrite_getElem?_ne h a i k v hne)
              | null =>
                  exact hwstep _ hr (heapWrite_length ..)
                    (fun i hi hne => heapWrite_getElem?_ne h a i k v hne)
              | str s =>
                  cases v with
                  | str t =>
                      exact hwstep _ hr (heapWrite_length ..)
                        (fun i hi hne => heapWrite_getElem?_ne h a i k _ hne)
                  | undefined => exact hwstep _ hr rfl (fun _ _ _ => rfl)
                  | null => exact hwstep _ hr rfl (fun _ _ _ => rfl)
                  | bool b => exact hwstep _ hr rfl (fun _ _ _ => rfl)
                  | num n => exact hwstep _ hr rfl (fun _ _ _ => rfl)
                  | ref b => exact hwstep _ hr rfl (fun _ _ _ => rfl)
              | ref b =>
                  rcases hgb : h[b]? with _ | bo
                  · simp only [hgb] at hr
                    exact Option.noConfusion hr
                  · simp only [hgb] at hr
                    by_cases harr : bo.isArray = true
                    · rw [if_pos harr] at hr
                      exact hwstep _ hr rfl (fun _ _ _ => rfl)
                    · rw [if_neg harr] at hr
                      rcases hrec : reduceHeap 0 h b v with _ | p2
                      · simp only [hrec] at hr
                        exact Option.noConfusion hr
                      · simp [reduceHeap] at hrec
              | bool b => exact hwstep _ hr rfl (fun _ _ _ => rfl)
              | num n => exact hwstep _ hr rfl (fun _ _ _ => rfl)
  | succ n ihn =>
      obtain ⟨ihP, ihQ⟩ := ihn
      have hP : ∀ (h : Heap) a delta h2 r, reduceHeap (n + 1) h a delta = some (h2, r) →
          h.length ≤ h2.length ∧ ∀ i < h.length, h2[i]? = h[i]? := by
        intro h a delta h2 r hr
        simp only [reduceHeap] at hr
        rcases hga : h[a]? with _ | accObj
        · simp only [hga] at hr
          exact Option.noConfusion hr
        · simp only [hga] at hr
          rcases hen : hEntries (h ++ [⟨false, accObj.fields⟩]) delta with _ | es
          · simp only [hen] at hr
            exact Option.noConfusion hr
          · simp only [hen] at hr
            obtain ⟨hle, heq⟩ := ihQ _ _ _ _ _ hr
            have hlen1 : (h ++ [(⟨false, accObj.fields⟩ : HObj)]).length = h.length + 1 := by
              simp
            constructor
            · omega
            · intro i hi
              have h1 : h2[i]? = (h ++ [(⟨false, accObj.fields⟩ : HObj)])[i]? := by
                refine heq i ?_ ?_
                · omega
                · omega
              rw [h1, List.getElem?_append_left hi]
      refine ⟨hP, ?_⟩
      intro h a es
      induction es generalizing h with
      | nil =>
          intro h2 r hr
          obtain ⟨rfl, rfl⟩ : h = h2 ∧ a = r := by
            simpa [reduceHeapFoldWith] using hr
          exact ⟨le_refl _, fun i _ _ => rfl⟩
      | cons p rest ih =>
          intro h2 r hr
          obtain ⟨k, v⟩ := p
          rcases hga : h[a]? with _ | o
          · simp [reduceHeapFoldWith, hga] at hr
          · have hwstep : ∀ (h' : Heap),
                reduceHeapFoldWith (reduceHeap (n + 1)) h' a rest = some (h2, r) →
                h.length ≤ h'.length →
                (∀ i < h.length, i ≠ a → h'[i]? = h[i]?) →
                h.length ≤ h2.length ∧ ∀ i < h.length, i ≠ a → h2[i]? = h[i]? := by
              intro h' hr' hlen hpre
              obtain ⟨hle, heq⟩ := ih h' h2 r hr'
              exact ⟨le_trans hlen hle, fun i hi hne =>
                ((heq i (lt_of_lt_of_le hi hlen) hne).trans (hpre i hi hne))⟩
            simp only [reduceHeapFoldWith, hga] at hr
            rcases hlk : hLookup o.fields k with _ | val
            · simp only [hlk] at hr
              exact hwstep _ hr (le_of_eq (heapWrite_length ..).symm)
                (fun i hi hne => heapWrite_getElem?_ne h a i k v hne)
            · simp only [hlk] at hr
              cases val with
              | undefined =>
                  exact hwstep _ hr (le_of_eq (heapWrite_length ..).symm)
                    (fun i hi hne => heapWrite_getElem?_ne h a i k v hne)
              | null =>
                  exact hwstep _ hr (le_of_eq (heapWrite_length ..).symm)
                    (fun i hi hne => heapWrite_getElem?_ne h a i k v hne)
              | str s =>
                  cases v with
                  | str t =>
                      exact hwstep _ hr (le_of_eq (heapWrite_length ..).symm)
                        (fun i hi hne => heapWrite_getElem?_ne h a i k _ hne)
                  | undefined => exact hwstep _ hr (le_refl _) (fun _ _ _ => rfl)
                  | null => exact hwstep _ hr (le_refl _) (fun _ _ _ => rfl)
                  | bool b => exact hwstep _ hr (le_refl _) (fun _ _ _ => rfl)
                  | num m => exact hwstep _ hr (le_refl _) (fun _ _ _ => rfl)
                  | ref b => exact hwstep _ hr (le_refl _) (fun _ _ _ => rfl)
              | ref b =>
                  rcases hgb : h[b]? with _ | bo
                  · simp only [hgb] at hr
                    exact Option.noConfusion hr
                  · simp only [hgb] at hr
                    by_cases harr : bo.isArray = true
                    · rw [if_pos harr] at hr
                      exact hwstep _ hr (le_refl _) (fun _ _ _ => rfl)
                    · rw [if_neg harr] at hr
                      rcases hrec : reduceHeap (n + 1) h b v with _ | p2
                      · simp only [hrec] at hr
                        exact Option.noConfusion hr
                      · simp only [hrec] at hr
                        obtain ⟨h3, m⟩ := p2
                        obtain ⟨hle3, heq3⟩ := hP h b v h3 m hrec
                        refine hwstep _ hr ?_ ?_
                        · rw [heapWrite_length]
                          exact hle3
                        · intro i hi hne
                          rw [heapWrite_getElem?_ne _ _ _ _ _ hne]
                          exact heq3 i hi
              | bool b => exact hwstep _ hr (le_refl _) (fun _ _ _ => rfl)
              | num m => exact hwstep _ hr (le_refl _) (fun _ _ _ => rfl)

/-- C9: the heap-level merge of `messageReducer` returns its result
without mutating the `previous` argument: every record that existed in the
heap before the call — the previous message's top-level object, its nested
objects and anything a delta aliases — is unchanged after it, because the
code copies at each level it modifies (`acc = {...acc}` and the recursive
branch) and writes only into the fresh copies. -/
theorem messageReducer_does_not_mutate_previous (fuel : Nat) (h : Heap)
    (previous : Nat) (delta : HVal) (h2 : Heap) (r : Nat)
    (hred : reduceHeap fuel h previous delta = some (h2, r)) :
    ∀ i < h.length, h2[i]? = h[i]? :=
  fun i hi => ((reduceHeap_preserves_aux fuel).1 h previous delta h2 r hred).2 i hi

/-- The heap of C9's witness: the previous message at address 0 with a
nested `function_call` object at address 1, and a string-valued delta
object at address 2. -/
def c9Heap : Heap :=
  [ ⟨false, [("function_call", .ref 1)]⟩
  , ⟨false, [("name", .str "f")]⟩
  , ⟨false, [("function_call", .str "xy")]⟩ ]

/-- The heap after C9's witness merge: two fresh copies were allocated and
mutated; addresses 0, 1 and 2 are untouched. -/
def c9HeapAfter : Heap :=
  [ ⟨false, [("function_call", .ref 1)]⟩
  , ⟨false, [("name", .str "f")]⟩
  , ⟨false, [("function_call", .str "xy")]⟩
  , ⟨false, [("function_call", .ref 4)]⟩
  , ⟨false, [("name", .str "f"), ("0", .str "x"), ("1", .str "y")]⟩ ]

/-- Witness for C9 at the concrete heap: the merge recursed into the
nested object, yet the nested record at address 1 is unchanged. -/
theorem messageReducer_does_not_mutate_previous_witness :
    reduceHeap 5 c9Heap 0 (.ref 2) = some (c9HeapAfter, 3)
    ∧ c9HeapAfter[1]? = c9Heap[1]? :=
  ⟨rfl, messageReducer_does_not_mutate_previous 5 c9Heap 0 (.ref 2) c9HeapAfter 3 rfl
    1 (by decide)⟩

end RetellDemo
